import Mathlib

/-!
Verification of the Topdf document-to-PDF converter.

This file gives a shallow embedding of the core of the repository
(src/src/converter.rs and src/src/ui.rs) and proves or refutes the
specification claims about it.

Conventions of the embedding:
* Filesystem paths are `String`s; `fileName`, `parentPath`,
  `rustPathExtension` and `fileStem` model the corresponding methods of
  Rust's `std::path::Path` for ordinary Unix-style paths (paths whose
  components are not `.` or `..`; the repository only ever feeds paths
  produced by a file dialog to these functions).
* Machine integers (`usize` counters of the UI state) are modelled as `Nat`;
  the counters count files of a batch, far below any overflow.
* Fallible Rust functions returning `Result<T, E>` are modelled as
  `Except String T`, with the `anyhow` context string as the error message.
* The PDF document being built is modelled as the list of blocks pushed
  into it (`Block`); `genpdf`'s `Style::new().bold()` and
  `.with_font_size(10)` become the `Style` record below.
-/

namespace Topdf

/-! ## Path model (std::path::Path on Unix-style string paths) -/

/-- Model of `Path::file_name`: the final component of the path, after
stripping trailing separators; `none` for the empty path, the root, and for
final components `.` and `..`. -/
def fileName (p : String) : Option String :=
  let cs := (p.toList).reverse.dropWhile (fun c => c = '/')
  if cs.isEmpty then none
  else
    let nameRev := cs.takeWhile (fun c => c ≠ '/')
    let name := nameRev.reverse
    if name = ['.'] ∨ name = ['.', '.'] then none else some (String.mk name)

/-- Model of `Path::parent`: everything before the final component;
`none` for the empty path and the root. -/
def parentPath (p : String) : Option String :=
  let cs := (p.toList).reverse.dropWhile (fun c => c = '/')
  if cs.isEmpty then none
  else
    let r := cs.dropWhile (fun c => c ≠ '/')
    if r.isEmpty then some ""
    else
      let r2 := r.dropWhile (fun c => c = '/')
      if r2.isEmpty then some "/" else some (String.mk r2.reverse)

/-- Split the final component at its last dot: `some (before, after)`,
or `none` when it contains no dot. -/
def splitAtLastDot (cs : List Char) : Option (List Char × List Char) :=
  let r := cs.reverse
  let afterRev := r.takeWhile (fun c => c ≠ '.')
  match r.dropWhile (fun c => c ≠ '.') with
  | [] => none
  | _ :: beforeRev => some (beforeRev.reverse, afterRev.reverse)

/-- Model of `Path::extension`: the part of the file name after its last
dot, unless the file name has no dot or only a leading dot. -/
def rustPathExtension (p : String) : Option String :=
  match fileName p with
  | none => none
  | some n =>
    match splitAtLastDot n.toList with
    | none => none
    | some (before, after) =>
      if before.isEmpty then none else some (String.mk after)

/-- Model of `Path::file_stem`: the file name up to its last dot (the whole
file name when it has no dot or only a leading dot). -/
def fileStem (p : String) : Option String :=
  match fileName p with
  | none => none
  | some n =>
    match splitAtLastDot n.toList with
    | none => some n
    | some (before, _) =>
      if before.isEmpty then some n else some (String.mk before)

/-- Model of `str::to_lowercase` as used on extensions. `Char.toLower`
lowers ASCII letters only; Rust performs full Unicode lowering, but the two
agree on every extension string that can reach a recognised table entry. -/
def asciiLowercase (s : String) : String :=
  String.mk (s.toList.map Char.toLower)

/-! ## Type classifier (src/src/converter.rs, `FileType::from_path`) -/

inductive FileType where
  | Markdown
  | Json
  | Xml
  | Txt
  | Docx
  | Html
  | Csv
  | Image
  | Unknown
deriving DecidableEq

/-- The `match` of `FileType::from_path` on the lowercased extension
(src/src/converter.rs lines 27–37). A Rust `match` over `Option<&str>`
string literals is a chain of string-equality tests, embedded here as the
equivalent decision chain, arm for arm in source order. -/
def classifyLowerExt (x : Option String) : FileType :=
  if x = some "md" ∨ x = some "markdown" then FileType.Markdown
  else if x = some "json" then FileType.Json
  else if x = some "xml" then FileType.Xml
  else if x = some "txt" ∨ x = some "rs" ∨ x = some "py" ∨ x = some "js" ∨
          x = some "c" ∨ x = some "cpp" then FileType.Txt
  else if x = some "docx" then FileType.Docx
  else if x = some "html" ∨ x = some "htm" then FileType.Html
  else if x = some "csv" then FileType.Csv
  else if x = some "png" ∨ x = some "jpg" ∨ x = some "jpeg" ∨ x = some "bmp" then FileType.Image
  else FileType.Unknown

/-- `FileType::from_path`: classify by the lowercased extension. -/
def FileType.from_path (p : String) : FileType :=
  classifyLowerExt ((rustPathExtension p).map asciiLowercase)

/-- The extensions recognised by the classifier. -/
def recognisedExtensions : List String :=
  ["md", "markdown", "json", "xml", "txt", "rs", "py", "js", "c", "cpp",
   "docx", "html", "htm", "csv", "png", "jpg", "jpeg", "bmp"]

/-! ## PDF blocks and styles (genpdf elements as pushed by the renderers) -/

/-- The styling attributes the renderers actually use: `Style::new()` is the
default record, `.bold()` sets `bold`, `.with_font_size(n)` sets `fontSize`,
`.with_color(Rgb(r,g,b))` sets `color`. -/
structure Style where
  bold : Bool := false
  fontSize : Option Nat := none
  color : Option (Nat × Nat × Nat) := none
deriving DecidableEq

/-- A top-level element pushed into the genpdf document: a styled paragraph
or a forced break of the given height in layout units. -/
inductive Block where
  | para (text : String) (style : Style)
  | brk (height : ℚ)
deriving DecidableEq

def boldStyle : Style := { bold := true }

def codeStyle : Style := { fontSize := some 10 }

def plainStyle : Style := {}

/-- Split a character list at every `\n` (the separators are consumed). -/
def splitNewlines : List Char → List (List Char)
  | [] => [[]]
  | '\n' :: rest => [] :: splitNewlines rest
  | c :: rest =>
    match splitNewlines rest with
    | l :: ls => (c :: l) :: ls
    | [] => [[c]]

/-- Strip one `\r` at the end of a line (CRLF handling of `str::lines`). -/
def dropCR (cs : List Char) : List Char :=
  match cs.reverse with
  | '\r' :: rest => rest.reverse
  | _ => cs

/-- Model of Rust's `str::lines`: split on `\n`, drop the final empty piece
produced by a trailing newline (or by emptiness), and strip one `\r` at the
end of each line. -/
def rustLines (s : String) : List String :=
  let parts := splitNewlines s.toList
  let parts := if parts.getLast? = some [] then parts.dropLast else parts
  parts.map (fun cs => String.mk (dropCR cs))

/-! ## JSON values (serde_json), modelled from the spec

The repository parses and re-serialises JSON through the `serde_json`
crate, which is not part of src/.  Modelled from the spec: "attempt strict
parse" and "re-serialize with pretty indentation" (spec §4.3).  `Json`
models `serde_json::Value` with objects as key-sorted association lists
(serde's default `BTreeMap`, later duplicate keys overwriting earlier
ones); numbers keep their source lexeme and are re-emitted verbatim, which
agrees with serde for integer JSON numbers (the only numbers exercised
here).  `jsonParse` is a strict JSON parser: a single value surrounded by
optional whitespace, no trailing input, control characters forbidden inside
strings; `\uXXXX` escapes decode when they denote a scalar value. -/

inductive Json where
  | null
  | bool (b : Bool)
  | num (lexeme : String)
  | str (s : String)
  | arr (items : List Json)
  | obj (fields : List (String × Json))

/-- Model of `serde_json::Value::is_null`. -/
def Json.isNull : Json → Bool
  | .null => true
  | _ => false

def lbraceChar : Char := Char.ofNat 123

def rbraceChar : Char := Char.ofNat 125

def isJsonWs (c : Char) : Bool :=
  c == ' ' || c == '\t' || c == '\n' || c == '\r'

def skipWs (cs : List Char) : List Char :=
  cs.dropWhile isJsonWs

def digits1 (cs : List Char) : Option (List Char × List Char) :=
  let ds := cs.takeWhile Char.isDigit
  if ds.isEmpty then none else some (ds, cs.dropWhile Char.isDigit)

def parseIntPart (cs : List Char) : Option (List Char × List Char) :=
  match cs with
  | '0' :: rest => some (['0'], rest)
  | c :: _ => if c.isDigit then digits1 cs else none
  | [] => none

def parseFracPart (cs : List Char) : Option (List Char × List Char) :=
  match cs with
  | '.' :: rest =>
    match digits1 rest with
    | some (ds, r) => some ('.' :: ds, r)
    | none => none
  | _ => some ([], cs)

def parseExpPart (cs : List Char) : Option (List Char × List Char) :=
  match cs with
  | c :: rest =>
    if c == 'e' || c == 'E' then
      match rest with
      | s :: rest2 =>
        if s == '+' || s == '-' then
          match digits1 rest2 with
          | some (ds, r) => some (c :: s :: ds, r)
          | none => none
        else
          match digits1 rest with
          | some (ds, r) => some (c :: ds, r)
          | none => none
      | [] => none
    else some ([], cs)
  | [] => some ([], [])

def parseNumber (cs : List Char) : Option (String × List Char) :=
  let signed := match cs with
    | '-' :: t => (['-'], t)
    | _ => (([] : List Char), cs)
  match parseIntPart signed.2 with
  | none => none
  | some (ip, r1) =>
    match parseFracPart r1 with
    | none => none
    | some (fp, r2) =>
      match parseExpPart r2 with
      | none => none
      | some (ep, r3) => some (String.mk (signed.1 ++ ip ++ fp ++ ep), r3)

def hexDigitVal (c : Char) : Option Nat :=
  if '0' ≤ c ∧ c ≤ '9' then some (c.toNat - 48)
  else if 'a' ≤ c ∧ c ≤ 'f' then some (c.toNat - 87)
  else if 'A' ≤ c ∧ c ≤ 'F' then some (c.toNat - 55)
  else none

def unescapeChar (e : Char) : Option Char :=
  if e == '"' then some '"'
  else if e == '\\' then some '\\'
  else if e == '/' then some '/'
  else if e == 'b' then some (Char.ofNat 8)
  else if e == 'f' then some (Char.ofNat 12)
  else if e == 'n' then some '\n'
  else if e == 'r' then some '\r'
  else if e == 't' then some '\t'
  else none

def parseStringBody : List Char → Option (List Char × List Char)
  | [] => none
  | '"' :: rest => some ([], rest)
  | '\\' :: 'u' :: a :: b :: c :: d :: rest =>
    (match hexDigitVal a, hexDigitVal b, hexDigitVal c, hexDigitVal d with
     | some x, some y, some z, some w =>
       let n := ((x * 16 + y) * 16 + z) * 16 + w
       if _h : n.isValidChar then
         (parseStringBody rest).map (fun p => (Char.ofNat n :: p.1, p.2))
       else none
     | _, _, _, _ => none)
  | '\\' :: e :: rest =>
    (match unescapeChar e with
     | some c => (parseStringBody rest).map (fun p => (c :: p.1, p.2))
     | none => none)
  | c :: rest =>
    if c.toNat < 32 then none
    else (parseStringBody rest).map (fun p => (c :: p.1, p.2))

/-- Key-sorted insertion with replacement: the behaviour of
`BTreeMap::insert` as used by serde_json's object builder. -/
def insertSorted (k : String) (v : Json) : List (String × Json) → List (String × Json)
  | [] => [(k, v)]
  | (k2, v2) :: rest =>
    if k < k2 then (k, v) :: (k2, v2) :: rest
    else if k = k2 then (k, v) :: rest
    else (k2, v2) :: insertSorted k v rest

def objOfPairs (pairs : List (String × Json)) : List (String × Json) :=
  pairs.foldl (fun m p => insertSorted p.1 p.2 m) []

mutual

def parseValue : Nat → List Char → Option (Json × List Char)
  | 0, _ => none
  | Nat.succ fuel, cs =>
    match skipWs cs with
    | 'n' :: 'u' :: 'l' :: 'l' :: rest => some (Json.null, rest)
    | 't' :: 'r' :: 'u' :: 'e' :: rest => some (Json.bool true, rest)
    | 'f' :: 'a' :: 'l' :: 's' :: 'e' :: rest => some (Json.bool false, rest)
    | '"' :: rest => (parseStringBody rest).map (fun p => (Json.str (String.mk p.1), p.2))
    | '[' :: rest =>
      (match skipWs rest with
       | ']' :: r2 => some (Json.arr [], r2)
       | cs2 => (parseArrayItems fuel cs2).map (fun p => (Json.arr p.1, p.2)))
    | c :: rest =>
      if c == lbraceChar then
        match skipWs rest with
        | c2 :: r2 =>
          if c2 == rbraceChar then some (Json.obj [], r2)
          else (parseObjItems fuel (c2 :: r2)).map (fun p => (Json.obj (objOfPairs p.1), p.2))
        | [] => none
      else (parseNumber (c :: rest)).map (fun p => (Json.num p.1, p.2))
    | [] => none

def parseArrayItems : Nat → List Char → Option (List Json × List Char)
  | 0, _ => none
  | Nat.succ fuel, cs =>
    match parseValue fuel cs with
    | none => none
    | some (v, rest) =>
      match skipWs rest with
      | ',' :: r2 => (parseArrayItems fuel r2).map (fun p => (v :: p.1, p.2))
      | ']' :: r2 => some ([v], r2)
      | _ => none

def parseObjItems : Nat → List Char → Option (List (String × Json) × List Char)
  | 0, _ => none
  | Nat.succ fuel, cs =>
    match skipWs cs with
    | '"' :: rest =>
      (match parseStringBody rest with
       | none => none
       | some (k, r1) =>
         match skipWs r1 with
         | ':' :: r2 =>
           (match parseValue fuel r2 with
            | none => none
            | some (v, r3) =>
              match skipWs r3 with
              | ',' :: r4 =>
                (parseObjItems fuel r4).map (fun p => ((String.mk k, v) :: p.1, p.2))
              | c5 :: r5 =>
                if c5 == rbraceChar then some ([(String.mk k, v)], r5) else none
              | [] => none)
         | _ => none)
    | _ => none

end

/-- Strict parse of a whole input string, `serde_json::from_str::<Value>`:
one JSON value, surrounded only by whitespace. -/
def jsonParse (s : String) : Option Json :=
  let cs := s.toList
  match parseValue (2 * cs.length + 2) cs with
  | some (v, rest) => if (skipWs rest).isEmpty then some v else none
  | none => none

/-! ## Pretty printing (serde_json::to_string_pretty, 2-space indent) -/

def hexDigitChar (n : Nat) : Char :=
  if n < 10 then Char.ofNat (48 + n) else Char.ofNat (87 + n)

/-- serde_json's string escaping: quote, backslash, the short control
escapes, and `\u00XX` for the remaining control characters. -/
def escapeJsonChar (c : Char) : List Char :=
  if c == '"' then ['\\', '"']
  else if c == '\\' then ['\\', '\\']
  else if c == Char.ofNat 8 then ['\\', 'b']
  else if c == Char.ofNat 12 then ['\\', 'f']
  else if c == '\n' then ['\\', 'n']
  else if c == '\r' then ['\\', 'r']
  else if c == '\t' then ['\\', 't']
  else if c.toNat < 32 then
    ['\\', 'u', '0', '0', hexDigitChar (c.toNat / 16), hexDigitChar (c.toNat % 16)]
  else [c]

def escapeJsonString (s : String) : String :=
  String.mk ((s.toList.map escapeJsonChar).flatten)

def padIndent (n : Nat) : String :=
  String.mk (List.replicate (2 * n) ' ')

mutual

def prettyJson : Nat → Json → String
  | _, Json.null => "null"
  | _, Json.bool true => "true"
  | _, Json.bool false => "false"
  | _, Json.num lx => lx
  | _, Json.str s => "\"" ++ escapeJsonString s ++ "\""
  | _, Json.arr [] => "[]"
  | ind, Json.arr (x :: xs) =>
    "[\n" ++ prettyArrItems (ind + 1) (x :: xs) ++ "\n" ++ padIndent ind ++ "]"
  | _, Json.obj [] => "\x7b\x7d"
  | ind, Json.obj (p :: ps) =>
    "\x7b\n" ++ prettyObjFields (ind + 1) (p :: ps) ++ "\n" ++ padIndent ind ++ "\x7d"

def prettyArrItems : Nat → List Json → String
  | _, [] => ""
  | ind, [x] => padIndent ind ++ prettyJson ind x
  | ind, x :: y :: xs =>
    padIndent ind ++ prettyJson ind x ++ ",\n" ++ prettyArrItems ind (y :: xs)

def prettyObjFields : Nat → List (String × Json) → String
  | _, [] => ""
  | ind, [(k, v)] =>
    padIndent ind ++ "\"" ++ escapeJsonString k ++ "\": " ++ prettyJson ind v
  | ind, (k, v) :: q :: ps =>
    padIndent ind ++ "\"" ++ escapeJsonString k ++ "\": " ++ prettyJson ind v ++ ",\n" ++
      prettyObjFields ind (q :: ps)

end

/-- `serde_json::to_string_pretty`. -/
def toStringPretty (v : Json) : String :=
  prettyJson 0 v

/-! ## Renderers (src/src/converter.rs) -/

/-- `render_text` (converter.rs lines 124–128): one plain paragraph per
line of the content. -/
def render_text (content : String) : List Block :=
  (rustLines content).map (fun line => Block.para line plainStyle)

/-- `render_json` (converter.rs lines 130–140): parse with
`unwrap_or(Value::Null)`; when the resulting value `is_null`, fall back to
the original content, otherwise pretty-print; emit the bold header, a
1.0 break, and one size-10 paragraph per line.  (The source's
`to_string_pretty(&v)?` cannot fail on a `Value`, so it is modelled as
total.) -/
def render_json (content : String) : List Block :=
  let v : Json := (jsonParse content).getD Json.null
  let pretty := if v.isNull then content else toStringPretty v
  [Block.para "JSON Content:" boldStyle, Block.brk 1] ++
    (rustLines pretty).map (fun line => Block.para line codeStyle)

/-- `render_xml` (converter.rs lines 142–149): bold header, 1.0 break, then
the raw content line by line at size 10. -/
def render_xml (content : String) : List Block :=
  [Block.para "XML Content:" boldStyle, Block.brk 1] ++
    (rustLines content).map (fun line => Block.para line codeStyle)

/-! ## The converter (src/src/converter.rs, `convert`)

The extractors and renderers that read the filesystem or depend on
further external crates are parameters of the model: `readFile` models
`fs::read_to_string` (`none` when the file is unreadable or not valid
UTF-8), `readDocx` models `read_docx`, and `ExternalRenderers` packages
`render_markdown`, `render_html`, `render_csv` and `render_image`, whose
internals no claim depends on.  An `Except.ok blocks` result models a
successfully written output PDF containing those blocks; `Except.error e`
models a failed conversion in which `doc.render_to_file` was never reached,
so no output file is produced. -/

structure ExternalRenderers where
  markdown : String → List Block
  html : String → List Block
  csvRender : String → Except String (List Block)
  imageRender : String → Except String (List Block)

/-- `convert` (converter.rs lines 47–96): read content (the `_` arm of the
content `match` covers `Markdown`, `Json`, `Xml`, `Txt`, `Html` and
`Unknown`, so the input file is read even for `Unknown`), then dispatch on
the file type, failing with "Unknown file type" for `Unknown` before the
document is rendered to the output file. -/
def convert (readFile : String → Option String) (readDocx : String → Except String String)
    (ext : ExternalRenderers) (input : String) : Except String (List Block) :=
  let file_type := FileType.from_path input
  let contentRes : Except String String :=
    match file_type with
    | FileType.Image => Except.ok ""
    | FileType.Docx => readDocx input
    | FileType.Csv => Except.ok ""
    | _ =>
      match readFile input with
      | some s => Except.ok s
      | none => Except.error "Failed to read file"
  match contentRes with
  | Except.error e => Except.error e
  | Except.ok content =>
    match file_type with
    | FileType.Markdown => Except.ok (ext.markdown content)
    | FileType.Json => Except.ok (render_json content)
    | FileType.Xml => Except.ok (render_xml content)
    | FileType.Txt => Except.ok (render_text content)
    | FileType.Docx => Except.ok (render_text content)
    | FileType.Html => Except.ok (ext.html content)
    | FileType.Csv => ext.csvRender input
    | FileType.Image => ext.imageRender input
    | FileType.Unknown => Except.error "Unknown file type"

/-! ## Batch orchestrator (src/src/ui.rs, `App`) -/

inductive ConversionStatus where
  | Pending
  | Converting
  | Success
  | Error (msg : String)
deriving DecidableEq

def isSuccess : ConversionStatus → Bool
  | ConversionStatus.Success => true
  | _ => false

structure FileEntry where
  path : String
  status : ConversionStatus
deriving DecidableEq

/-- The orchestrator state of `App` (ui.rs lines 23–31).  The shared
`font: Arc<FontData>` is an opaque immutable resource never inspected by a
state transition and is omitted. -/
structure App where
  files : List FileEntry
  output_dir : Option String
  is_converting : Bool
  total_files : Nat
  completed_files : Nat
  show_about : Bool
deriving DecidableEq

/-- The messages of `Message` (ui.rs lines 33–45).  A worker's completion
`Result<(), String>` is `Except String Unit`. -/
inductive Msg where
  | AddFiles
  | FilesSelected (paths : List String)
  | RemoveFile (index : Nat)
  | SelectOutputDir
  | OutputDirSelected (path : String)
  | ConvertAll
  | ConversionFinished (index : Nat) (result : Except String Unit)
  | ToggleAbout
  | OpenLink (url : String)
  | None

/-- The `FilesSelected` loop (ui.rs lines 106–119): for each path, push a
`Pending` entry unless an entry with that path already exists. -/
def addFiles (files : List FileEntry) (paths : List String) : List FileEntry :=
  paths.foldl
    (fun fs path =>
      if fs.any (fun f => f.path == path) then fs
      else fs ++ [{ path := path, status := ConversionStatus.Pending }])
    files

/-- `self.files[i].status = st` for an in-range index, the identity
otherwise (used by `get_mut` call sites). -/
def setEntryStatus (files : List FileEntry) (i : Nat) (st : ConversionStatus) :
    List FileEntry :=
  match files[i]? with
  | some f => files.set i { f with status := st }
  | none => files

/-- The indices scheduled by `ConvertAll` (ui.rs lines 157–160): positions
of the entries whose status is not `Success`, in order. -/
def filesToConvert (files : List FileEntry) : List Nat :=
  (List.range files.length).filter
    (fun i =>
      match files[i]? with
      | some f => ! isSuccess f.status
      | none => false)

/-- The `for i in files_to_convert` loop (ui.rs lines 171–173): set each
scheduled entry to `Converting`. -/
def markConverting (files : List FileEntry) (idxs : List Nat) : List FileEntry :=
  idxs.foldl (fun fs i => setEntryStatus fs i ConversionStatus.Converting) files

def statusOfResult : Except String Unit → ConversionStatus
  | Except.ok _ => ConversionStatus.Success
  | Except.error e => ConversionStatus.Error e

/-- `App::update` (ui.rs lines 90–232), restricted to its effect on the
orchestrator state.  The second component is the list of indices for which
a conversion task is spawned (the `tasks` vector): it is non-empty only in
the `ConvertAll` branch that starts a batch.  `AddFiles`, `SelectOutputDir`
and `OpenLink` only launch dialogs or a browser and leave the state
untouched. -/
def update (s : App) (m : Msg) : App × List Nat :=
  match m with
  | Msg.AddFiles => (s, [])
  | Msg.FilesSelected paths => ({ s with files := addFiles s.files paths }, [])
  | Msg.RemoveFile i =>
    (if i < s.files.length then { s with files := s.files.eraseIdx i } else s, [])
  | Msg.SelectOutputDir => (s, [])
  | Msg.OutputDirSelected p => ({ s with output_dir := some p }, [])
  | Msg.ConvertAll =>
    if s.files.isEmpty || s.is_converting then (s, [])
    else
      let toConvert := filesToConvert s.files
      if toConvert.length = 0 then
        ({ s with is_converting := false, completed_files := 0, total_files := 0 }, [])
      else
        ({ s with is_converting := true, completed_files := 0,
                  total_files := toConvert.length,
                  files := markConverting s.files toConvert }, toConvert)
  | Msg.ConversionFinished i r =>
    let files' := setEntryStatus s.files i (statusOfResult r)
    let completed' := s.completed_files + 1
    (if s.total_files ≤ completed' then
      { s with files := files', completed_files := completed', is_converting := false }
     else
      { s with files := files', completed_files := completed' }, [])
  | Msg.ToggleAbout => ({ s with show_about := ! s.show_about }, [])
  | Msg.OpenLink _ => (s, [])
  | Msg.None => (s, [])

/-- The initial orchestrator state built by `App::new` (ui.rs lines 76–87). -/
def initialApp : App :=
  { files := [], output_dir := none, is_converting := false,
    total_files := 0, completed_files := 0, show_about := false }

/-- The output-path computation of the `ConvertAll` handler (ui.rs lines
176–178): `output_dir.unwrap_or_else(|| input.parent().unwrap())` joined
with `file_stem().unwrap() + ".pdf"`.  A `none` result models a panic of
one of the two `unwrap()` calls. -/
def computeOutputPath (output_dir : Option String) (input : String) : Option String :=
  match (match output_dir with
         | some d => some d
         | none => parentPath input) with
  | none => none
  | some dir =>
    match fileStem input with
    | none => none
    | some stem => some (dir ++ "/" ++ stem ++ ".pdf")

/-- The states reachable in the closed system of the application, together
with two ghost components read off the `ConvertAll` handler: `fl` is the
multiset of in-flight task indices (tasks spawned whose
`ConversionFinished` has not yet been delivered) and `sel` is the list of
indices selected for the most recent batch.  The environment constraints
mirror the source: a `ConversionFinished i r` is delivered only for an
in-flight index `i` (each spawned worker sends exactly one completion, in
arbitrary order — spec §5), and a `RemoveFile` is delivered only while
`is_converting` is false, because the view renders the remove button only
then (ui.rs line 376).  All other messages can arrive at any time. -/
inductive Reach : App → List Nat → List Nat → Prop where
  | init : Reach initialApp [] []
  | addFiles {s fl sel} : Reach s fl sel → Reach (update s Msg.AddFiles).1 fl sel
  | filesSelected {s fl sel} (paths : List String) :
      Reach s fl sel → Reach (update s (Msg.FilesSelected paths)).1 fl sel
  | removeFile {s fl sel} (i : Nat) :
      Reach s fl sel → s.is_converting = false →
      Reach (update s (Msg.RemoveFile i)).1 fl sel
  | selectOutputDir {s fl sel} : Reach s fl sel → Reach (update s Msg.SelectOutputDir).1 fl sel
  | outputDirSelected {s fl sel} (p : String) :
      Reach s fl sel → Reach (update s (Msg.OutputDirSelected p)).1 fl sel
  | convertAll {s fl sel} :
      Reach s fl sel →
      Reach (update s Msg.ConvertAll).1 (fl ++ (update s Msg.ConvertAll).2)
        (if (update s Msg.ConvertAll).2.isEmpty then sel else (update s Msg.ConvertAll).2)
  | conversionFinished {s fl sel} (i : Nat) (r : Except String Unit) :
      Reach s fl sel → i ∈ fl →
      Reach (update s (Msg.ConversionFinished i r)).1 (fl.erase i) sel
  | toggleAbout {s fl sel} : Reach s fl sel → Reach (update s Msg.ToggleAbout).1 fl sel
  | openLink {s fl sel} (url : String) :
      Reach s fl sel → Reach (update s (Msg.OpenLink url)).1 fl sel
  | noneMsg {s fl sel} : Reach s fl sel → Reach (update s Msg.None).1 fl sel

/-- A terminal per-entry status. -/
def Terminal (st : ConversionStatus) : Prop :=
  st = ConversionStatus.Success ∨ ∃ e, st = ConversionStatus.Error e

/-- The inductive invariant of the orchestrator, relating the state to the
in-flight indices `fl` and the last batch selection `sel`. -/
def Inv (s : App) (fl sel : List Nat) : Prop :=
  s.completed_files + fl.length = s.total_files ∧
  (s.is_converting = true ↔ fl ≠ []) ∧
  fl.Nodup ∧
  (∀ i ∈ fl, ∃ f, s.files[i]? = some f ∧ f.status = ConversionStatus.Converting) ∧
  (∀ i f, s.files[i]? = some f → f.status = ConversionStatus.Converting → i ∈ fl) ∧
  (fl ≠ [] → ∀ j ∈ sel, ∃ f, s.files[j]? = some f ∧
    (f.status = ConversionStatus.Converting ∨ Terminal f.status)) ∧
  (s.files.map FileEntry.path).Nodup

/-- A reachable state in which every entry is `Success` and the finished
batch's counters are still standing (used by claims C2 and C3). -/
def doneApp : App :=
  { files := [{ path := "a.md", status := ConversionStatus.Success }],
    output_dir := none, is_converting := false,
    total_files := 1, completed_files := 1, show_about := false }

/-- A reachable mid-batch state: one entry, currently converting. -/
def midBatchApp : App :=
  { files := [{ path := "a.md", status := ConversionStatus.Converting }],
    output_dir := none, is_converting := true,
    total_files := 1, completed_files := 0, show_about := false }

/-- An idle state holding one pending and one already-converted entry. -/
def mixedApp : App :=
  { files := [{ path := "a.md", status := ConversionStatus.Pending },
              { path := "b.md", status := ConversionStatus.Success }],
    output_dir := none, is_converting := false,
    total_files := 0, completed_files := 0, show_about := false }

/-- Trivial instantiations of the external renderers, for concrete runs. -/
def trivialRenderers : ExternalRenderers :=
  { markdown := fun _ => [], html := fun _ => [],
    csvRender := fun _ => Except.ok [], imageRender := fun _ => Except.ok [] }

/-! ## Helper lemmas -/

theorem Json.isNull_eq_true_iff {v : Json} : v.isNull = true ↔ v = Json.null := by
  cases v <;> simp [Json.isNull]

theorem isSuccess_eq_false_iff {st : ConversionStatus} :
    isSuccess st = false ↔ st ≠ ConversionStatus.Success := by
  cases st <;> simp [isSuccess]

theorem isSuccess_eq_true_iff {st : ConversionStatus} :
    isSuccess st = true ↔ st = ConversionStatus.Success := by
  cases st <;> simp [isSuccess]

theorem terminal_statusOfResult (r : Except String Unit) : Terminal (statusOfResult r) := by
  cases r with
  | ok _ => exact Or.inl rfl
  | error e => exact Or.inr ⟨e, rfl⟩

theorem statusOfResult_ne_converting (r : Except String Unit) :
    statusOfResult r ≠ ConversionStatus.Converting := by
  cases r <;> simp [statusOfResult]

theorem length_setEntryStatus (fs : List FileEntry) (i : Nat) (st : ConversionStatus) :
    (setEntryStatus fs i st).length = fs.length := by
  unfold setEntryStatus
  cases h : fs[i]? <;> simp

theorem getElem?_setEntryStatus (fs : List FileEntry) (i : Nat) (st : ConversionStatus)
    (j : Nat) :
    (setEntryStatus fs i st)[j]? =
      if j = i then (fs[j]?).map (fun f => { f with status := st }) else fs[j]? := by
  unfold setEntryStatus
  cases h : fs[i]? with
  | none =>
    by_cases hj : j = i
    · subst hj; simp [h]
    · simp [hj]
  | some f =>
    have hlt : i < fs.length := (List.getElem?_eq_some.mp h).1
    by_cases hj : j = i
    · subst hj; rw [List.getElem?_set_self hlt, h]; simp
    · rw [List.getElem?_set_ne (fun he => hj he.symm)]; simp [hj]

theorem map_path_setEntryStatus (fs : List FileEntry) (i : Nat) (st : ConversionStatus) :
    (setEntryStatus fs i st).map FileEntry.path = fs.map FileEntry.path := by
  apply List.ext_getElem?
  intro n
  rw [List.getElem?_map, List.getElem?_map, getElem?_setEntryStatus]
  by_cases hn : n = i
  · subst hn; cases fs[n]? <;> simp
  · simp [hn]

theorem length_markConverting (fs : List FileEntry) (idxs : List Nat) :
    (markConverting fs idxs).length = fs.length := by
  induction idxs generalizing fs with
  | nil => rfl
  | cons i is ih =>
    exact (ih (setEntryStatus fs i ConversionStatus.Converting)).trans
      (length_setEntryStatus fs i ConversionStatus.Converting)

theorem getElem?_markConverting (fs : List FileEntry) (idxs : List Nat) (j : Nat) :
    (markConverting fs idxs)[j]? =
      if j ∈ idxs then
        (fs[j]?).map (fun f => { f with status := ConversionStatus.Converting })
      else fs[j]? := by
  induction idxs generalizing fs with
  | nil => simp [markConverting]
  | cons i is ih =>
    have hstep : markConverting fs (i :: is) =
        markConverting (setEntryStatus fs i ConversionStatus.Converting) is := rfl
    rw [hstep, ih, getElem?_setEntryStatus]
    by_cases his : j ∈ is
    · by_cases hji : j = i
      · subst hji
        simp only [his, if_pos, List.mem_cons, true_or, if_true]
        cases fs[j]? <;> simp
      · simp [his, hji]
    · by_cases hji : j = i
      · subst hji; simp [his]
      · simp [his, hji]

theorem map_path_markConverting (fs : List FileEntry) (idxs : List Nat) :
    (markConverting fs idxs).map FileEntry.path = fs.map FileEntry.path := by
  induction idxs generalizing fs with
  | nil => rfl
  | cons i is ih =>
    have hstep : markConverting fs (i :: is) =
        markConverting (setEntryStatus fs i ConversionStatus.Converting) is := rfl
    rw [hstep, ih, map_path_setEntryStatus]

theorem mem_filesToConvert {fs : List FileEntry} {i : Nat} :
    i ∈ filesToConvert fs ↔ ∃ f, fs[i]? = some f ∧ isSuccess f.status = false := by
  unfold filesToConvert
  rw [List.mem_filter, List.mem_range]
  cases h : fs[i]? with
  | none => simp
  | some f =>
    have hlt : i < fs.length := (List.getElem?_eq_some.mp h).1
    simp [hlt]

theorem nodup_filesToConvert (fs : List FileEntry) : (filesToConvert fs).Nodup :=
  (List.nodup_range _).filter _

theorem filesToConvert_eq_nil_of_all_success {fs : List FileEntry}
    (h : ∀ f ∈ fs, f.status = ConversionStatus.Success) : filesToConvert fs = [] := by
  rw [List.eq_nil_iff_forall_not_mem]
  intro i hi
  obtain ⟨f, hf, hs⟩ := mem_filesToConvert.mp hi
  have hmem : f ∈ fs := List.mem_iff_getElem?.mpr ⟨i, hf⟩
  exact absurd (h f hmem) (isSuccess_eq_false_iff.mp hs)

theorem addFiles_exists_tail (fs : List FileEntry) (ps : List String) :
    ∃ tail, addFiles fs ps = fs ++ tail ∧
      ∀ f ∈ tail, f.status = ConversionStatus.Pending := by
  induction ps generalizing fs with
  | nil => exact ⟨[], by simp [addFiles], by simp⟩
  | cons p rest ih =>
    have hstep : addFiles fs (p :: rest) =
        addFiles (if fs.any (fun f => f.path == p) then fs
                  else fs ++ [{ path := p, status := ConversionStatus.Pending }]) rest := rfl
    by_cases hany : fs.any (fun f => f.path == p) = true
    · rw [hstep, if_pos hany]; exact ih fs
    · rw [hstep, if_neg hany]
      obtain ⟨t, ht, hp⟩ := ih (fs ++ [{ path := p, status := ConversionStatus.Pending }])
      refine ⟨{ path := p, status := ConversionStatus.Pending } :: t, ?_, ?_⟩
      · rw [ht]; simp
      · intro f hf
        rcases List.mem_cons.mp hf with h | h
        · rw [h]
        · exact hp f h

theorem mem_paths_of_any {fs : List FileEntry} {p : String}
    (h : fs.any (fun f => f.path == p) = true) : p ∈ fs.map FileEntry.path := by
  obtain ⟨f, hf, he⟩ := List.any_eq_true.mp h
  exact List.mem_map.mpr ⟨f, hf, (beq_iff_eq.mp he)⟩

theorem not_mem_paths_of_not_any {fs : List FileEntry} {p : String}
    (h : ¬ fs.any (fun f => f.path == p) = true) : p ∉ fs.map FileEntry.path := by
  intro hmem
  obtain ⟨f, hf, he⟩ := List.mem_map.mp hmem
  exact h (List.any_eq_true.mpr ⟨f, hf, beq_iff_eq.mpr he⟩)

theorem nodup_path_addFiles {fs : List FileEntry} (ps : List String)
    (h : (fs.map FileEntry.path).Nodup) :
    ((addFiles fs ps).map FileEntry.path).Nodup := by
  induction ps generalizing fs with
  | nil => exact h
  | cons p rest ih =>
    have hstep : addFiles fs (p :: rest) =
        addFiles (if fs.any (fun f => f.path == p) then fs
                  else fs ++ [{ path := p, status := ConversionStatus.Pending }]) rest := rfl
    by_cases hany : fs.any (fun f => f.path == p) = true
    · rw [hstep, if_pos hany]; exact ih h
    · rw [hstep, if_neg hany]
      apply ih
      rw [List.map_append]
      rw [List.nodup_append]
      exact ⟨h, List.nodup_singleton _, by
        intro a ha hb
        simp only [List.map_cons, List.map_nil, List.mem_singleton] at hb
        subst hb
        exact not_mem_paths_of_not_any hany ha⟩

theorem mem_paths_addFiles {fs : List FileEntry} {ps : List String} {p : String}
    (h : p ∈ ps) : p ∈ (addFiles fs ps).map FileEntry.path := by
  induction ps generalizing fs with
  | nil => exact absurd h (List.not_mem_nil p)
  | cons q rest ih =>
    have hstep : addFiles fs (q :: rest) =
        addFiles (if fs.any (fun f => f.path == q) then fs
                  else fs ++ [{ path := q, status := ConversionStatus.Pending }]) rest := rfl
    rcases List.mem_cons.mp h with hq | hrest
    · subst hq
      have hmem1 : p ∈ (if fs.any (fun f => f.path == p) then fs
          else fs ++ [{ path := p, status := ConversionStatus.Pending }]).map FileEntry.path := by
        by_cases hany : fs.any (fun f => f.path == p) = true
        · rw [if_pos hany]; exact mem_paths_of_any hany
        · rw [if_neg hany]; simp
      rw [hstep]
      obtain ⟨t, ht, _⟩ := addFiles_exists_tail
        (if fs.any (fun f => f.path == p) then fs
         else fs ++ [{ path := p, status := ConversionStatus.Pending }]) rest
      rw [ht, List.map_append]
      exact List.mem_append_left _ hmem1
    · rw [hstep]; exact ih hrest

/-- Counterexample to claim C1 as stated: the input `" null"` is valid JSON
(it parses strictly to the JSON value `null`, whose pretty re-serialization
is the single line `"null"`), yet `render_json` emits the original content
`" null"` rather than the pretty-printed re-serialization, because the
source conflates a successful parse to `Value::Null` with a parse failure
via `unwrap_or(Value::Null)` followed by `is_null()`. -/
theorem render_json_null_counterexample :
    jsonParse " null" = some Json.null ∧
    rustLines (toStringPretty Json.null) = ["null"] ∧
    render_json " null" ≠
      [Block.para "JSON Content:" boldStyle, Block.brk 1] ++
        (rustLines (toStringPretty Json.null)).map (fun line => Block.para line codeStyle) ∧
    render_json " null" =
      [Block.para "JSON Content:" boldStyle, Block.brk 1, Block.para " null" codeStyle] :=
  ⟨rfl, by decide, by decide, by decide⟩

/-- Claim C1 (amended): the JSON renderer attempts a strict JSON parse; if
the parse succeeds with a value other than JSON `null` it emits the
pretty-printed re-serialization line-by-line at code size (font size 10);
if the parse fails, or succeeds with exactly JSON `null`, it emits the
original content line-by-line at code size; in both cases the output is
preceded by a bold paragraph "JSON Content:" and a 1.0-unit break. -/
theorem render_json_parse_cases (content : String) :
    (∀ v, jsonParse content = some v → v ≠ Json.null →
      render_json content =
        [Block.para "JSON Content:" boldStyle, Block.brk 1] ++
          (rustLines (toStringPretty v)).map (fun line => Block.para line codeStyle)) ∧
    (jsonParse content = none ∨ jsonParse content = some Json.null →
      render_json content =
        [Block.para "JSON Content:" boldStyle, Block.brk 1] ++
          (rustLines content).map (fun line => Block.para line codeStyle)) := by
  constructor
  · intro v h hv
    have hnull : v.isNull = false := by
      cases hb : v.isNull
      · rfl
      · exact absurd (Json.isNull_eq_true_iff.mp hb) hv
    simp [render_json, h, hnull]
  · rintro (h | h) <;> simp [render_json, h, Json.isNull]

/-- Witness for C1 (amended) at the concrete input `"true"`: a successful
non-null parse is emitted pretty-printed under the header. -/
theorem render_json_parse_cases_witness :
    render_json "true" =
      [Block.para "JSON Content:" boldStyle, Block.brk 1, Block.para "true" codeStyle] :=
  ((render_json_parse_cases "true").1 (Json.bool true) rfl
    (fun h => Json.noConfusion h)).trans (by decide)

/-- The inductive invariant holds in every reachable state. -/
theorem reach_inv {s : App} {fl sel : List Nat} (h : Reach s fl sel) : Inv s fl sel := by
  induction h with
  | init =>
    refine ⟨rfl, by simp [initialApp], List.nodup_nil, by simp, ?_, by simp, by simp [initialApp]⟩
    intro i f hf hc
    simp [initialApp] at hf
  | @addFiles s fl sel hr ih => simpa [update] using ih
  | @filesSelected s fl sel paths hr ih =>
    obtain ⟨h1, h2, h3, h4, h5, h6, h7⟩ := ih
    obtain ⟨tail, htail, hpend⟩ := addFiles_exists_tail s.files paths
    simp only [update]
    refine ⟨by simpa using h1, by simpa using h2, h3, ?_, ?_, ?_, ?_⟩
    · intro i hi
      obtain ⟨f, hf, hc⟩ := h4 i hi
      have hlt : i < s.files.length := (List.getElem?_eq_some.mp hf).1
      refine ⟨f, ?_, hc⟩
      dsimp only
      rw [htail, List.getElem?_append, if_pos hlt]
      exact hf
    · intro i f hif hc
      try dsimp only at hif
      rw [htail, List.getElem?_append] at hif
      split at hif
      · exact h5 i f hif hc
      · have hmem : f ∈ tail := List.mem_iff_getElem?.mpr ⟨_, hif⟩
        rw [hpend f hmem] at hc
        exact absurd hc (by simp)
    · intro hne j hj
      obtain ⟨f, hf, hcase⟩ := h6 hne j hj
      have hlt : j < s.files.length := (List.getElem?_eq_some.mp hf).1
      refine ⟨f, ?_, hcase⟩
      dsimp only
      rw [htail, List.getElem?_append, if_pos hlt]
      exact hf
    · dsimp only
      exact nodup_path_addFiles paths h7
  | @removeFile s fl sel i hr hconv ih =>
    obtain ⟨h1, h2, h3, h4, h5, h6, h7⟩ := ih
    have hfl : fl = [] := by
      by_contra hne
      rw [h2.mpr hne] at hconv
      exact Bool.noConfusion hconv
    subst hfl
    simp only [update]
    by_cases hlt : i < s.files.length
    · rw [if_pos hlt]
      refine ⟨by simpa using h1, by simp [hconv], List.nodup_nil, by simp, ?_, by simp, ?_⟩
      · intro k f hk hc
        exfalso
        try dsimp only at hk
        have hmem : f ∈ s.files.eraseIdx i := List.mem_iff_getElem?.mpr ⟨k, hk⟩
        have hmem2 : f ∈ s.files := (List.eraseIdx_sublist s.files i).mem hmem
        obtain ⟨k2, hk2⟩ := List.mem_iff_getElem?.mp hmem2
        exact absurd (h5 k2 f hk2 hc) (List.not_mem_nil k2)
      · dsimp only
        exact List.Nodup.sublist
          (List.Sublist.map FileEntry.path (List.eraseIdx_sublist s.files i)) h7
    · rw [if_neg hlt]
      exact ⟨by simpa using h1, by simp [hconv], List.nodup_nil, by simp, h5, by simp, h7⟩
  | @selectOutputDir s fl sel hr ih => simpa [update] using ih
  | @outputDirSelected s fl sel p hr ih =>
    obtain ⟨h1, h2, h3, h4, h5, h6, h7⟩ := ih
    exact ⟨h1, h2, h3, h4, h5, h6, h7⟩
  | @convertAll s fl sel hr ih =>
    by_cases hguard : (s.files.isEmpty || s.is_converting) = true
    · have hu : update s Msg.ConvertAll = (s, []) := by
        simp only [update]
        rw [if_pos hguard]
      rw [hu]
      simpa using ih
    · obtain ⟨h1, h2, h3, h4, h5, h6, h7⟩ := ih
      have hconv : s.is_converting = false := by
        rcases Bool.or_eq_false_iff.mp (Bool.eq_false_iff.mpr hguard) with ⟨_, hc⟩
        exact hc
      have hfl : fl = [] := by
        by_contra hne
        rw [h2.mpr hne] at hconv
        exact Bool.noConfusion hconv
      subst hfl
      by_cases hlen : (filesToConvert s.files).length = 0
      · have hu : update s Msg.ConvertAll =
            ({ s with is_converting := false, completed_files := 0, total_files := 0 }, []) := by
          simp [update, hguard, hlen]
        rw [hu]
        refine ⟨by simp, by simp, by simp, by simp, ?_, by simp, by simpa using h7⟩
        intro k f hk hc
        try dsimp only at hk
        simpa using h5 k f hk hc
      · have htcne : filesToConvert s.files ≠ [] := by
          intro he
          rw [he] at hlen
          exact hlen rfl
        have hu : update s Msg.ConvertAll =
            ({ s with is_converting := true, completed_files := 0,
                      total_files := (filesToConvert s.files).length,
                      files := markConverting s.files (filesToConvert s.files) },
             filesToConvert s.files) := by
          simp [update, hguard, hlen]
        rw [hu]
        have hselr : (if (filesToConvert s.files).isEmpty then sel else filesToConvert s.files)
            = filesToConvert s.files := by
          rw [if_neg]
          simpa [List.isEmpty_iff] using htcne
        rw [hselr]
        refine ⟨by simp, by simp [htcne], by simpa using nodup_filesToConvert s.files, ?_, ?_, ?_, ?_⟩
        · intro k hk
          simp only [List.nil_append] at hk
          obtain ⟨f, hf, _⟩ := mem_filesToConvert.mp hk
          refine ⟨{ f with status := ConversionStatus.Converting }, ?_, rfl⟩
          dsimp only
          rw [getElem?_markConverting, if_pos hk, hf]
          rfl
        · intro k f hk hc
          try dsimp only at hk
          rw [getElem?_markConverting] at hk
          by_cases hkin : k ∈ filesToConvert s.files
          · simpa using hkin
          · rw [if_neg hkin] at hk
            exact absurd (h5 k f hk hc) (List.not_mem_nil k)
        · intro _ j hj
          obtain ⟨f, hf, _⟩ := mem_filesToConvert.mp hj
          refine ⟨{ f with status := ConversionStatus.Converting }, ?_, Or.inl rfl⟩
          dsimp only
          rw [getElem?_markConverting, if_pos hj, hf]
          rfl
        · dsimp only
          rw [map_path_markConverting]
          exact h7
  | @conversionFinished s fl sel i r hr hmem ih =>
    obtain ⟨h1, h2, h3, h4, h5, h6, h7⟩ := ih
    obtain ⟨f, hf, hfc⟩ := h4 i hmem
    have hflpos : 1 ≤ fl.length := List.length_pos.mpr (List.ne_nil_of_mem hmem)
    have hflne : fl ≠ [] := List.ne_nil_of_mem hmem
    have hicv : s.is_converting = true := h2.mpr hflne
    have herlen : (fl.erase i).length = fl.length - 1 := List.length_erase_of_mem hmem
    by_cases hcond : s.total_files ≤ s.completed_files + 1
    · have hflone : fl.length = 1 := by omega
      have hfleq : fl = [i] := by
        obtain ⟨a, ha⟩ := List.length_eq_one.mp hflone
        rw [ha] at hmem
        rw [ha, List.mem_singleton.mp hmem]
      have herase : fl.erase i = [] := by
        rw [hfleq]
        simp
      have hu : update s (Msg.ConversionFinished i r) =
          ({ s with files := setEntryStatus s.files i (statusOfResult r),
                    completed_files := s.completed_files + 1,
                    is_converting := false }, []) := by
        simp [update, hcond]
      rw [hu, herase]
      refine ⟨by simp; omega, by simp, List.nodup_nil, by simp, ?_, by simp, ?_⟩
      · intro k g hk hc
        exfalso
        try dsimp only at hk
        rw [getElem?_setEntryStatus] at hk
        by_cases hki : k = i
        · rw [if_pos hki] at hk
          subst hki
          rw [hf] at hk
          simp only [Option.map_some'] at hk
          cases hk
          exact statusOfResult_ne_converting r hc
        · rw [if_neg hki] at hk
          have := h5 k g hk hc
          rw [hfleq] at this
          exact hki (List.mem_singleton.mp this)
      · dsimp only
        rw [map_path_setEntryStatus]
        exact h7
    · have hlen2 : 2 ≤ fl.length := by omega
      have hu : update s (Msg.ConversionFinished i r) =
          ({ s with files := setEntryStatus s.files i (statusOfResult r),
                    completed_files := s.completed_files + 1 }, []) := by
        simp [update, hcond]
      rw [hu]
      have herne : fl.erase i ≠ [] := by
        intro he
        rw [he] at herlen
        simp at herlen
        omega
      refine ⟨by simp; omega, by simp [hicv, herne], h3.erase i, ?_, ?_, ?_, ?_⟩
      · intro k hk
        obtain ⟨hki, hkfl⟩ := (h3.mem_erase_iff).mp hk
        obtain ⟨g, hg, hgc⟩ := h4 k hkfl
        refine ⟨g, ?_, hgc⟩
        dsimp only
        rw [getElem?_setEntryStatus, if_neg hki]
        exact hg
      · intro k g hk hc
        try dsimp only at hk
        rw [getElem?_setEntryStatus] at hk
        by_cases hki : k = i
        · exfalso
          rw [if_pos hki] at hk
          subst hki
          rw [hf] at hk
          simp only [Option.map_some'] at hk
          cases hk
          exact statusOfResult_ne_converting r hc
        · rw [if_neg hki] at hk
          exact (h3.mem_erase_iff).mpr ⟨hki, h5 k g hk hc⟩
      · intro _ j hj
        obtain ⟨g, hg, hcase⟩ := h6 hflne j hj
        by_cases hji : j = i
        · subst hji
          rw [hf] at hg
          cases hg
          refine ⟨{ f with status := statusOfResult r }, ?_, Or.inr (terminal_statusOfResult r)⟩
          dsimp only
          rw [getElem?_setEntryStatus, if_pos rfl, hf]
          rfl
        · refine ⟨g, ?_, hcase⟩
          dsimp only
          rw [getElem?_setEntryStatus, if_neg hji]
          exact hg
      · dsimp only
        rw [map_path_setEntryStatus]
        exact h7
  | @toggleAbout s fl sel hr ih =>
    obtain ⟨h1, h2, h3, h4, h5, h6, h7⟩ := ih
    exact ⟨h1, h2, h3, h4, h5, h6, h7⟩
  | @openLink s fl sel url hr ih => simpa [update] using ih
  | @noneMsg s fl sel hr ih => simpa [update] using ih

theorem classifyLowerExt_not_mem {x : String}
    (hx : x ∉ recognisedExtensions) : classifyLowerExt (some x) = FileType.Unknown := by
  simp only [recognisedExtensions, List.mem_cons, List.not_mem_nil, or_false] at hx
  push_neg at hx
  obtain ⟨h1, h2, h3, h4, h5, h6, h7, h8, h9, h10, h11, h12, h13, h14, h15, h16, h17, h18⟩ := hx
  unfold classifyLowerExt
  simp [h1, h2, h3, h4, h5, h6, h7, h8, h9, h10, h11, h12, h13, h14, h15, h16, h17, h18]

theorem classifyLowerExt_none : classifyLowerExt none = FileType.Unknown := by
  simp [classifyLowerExt]

/-- Claim C4: for every path, classification is a deterministic function of
the lowercased extension: md/markdown map to Markdown, json to Json, xml to
Xml, txt/rs/py/js/c/cpp to Text (constructor `Txt`), docx to Docx, html/htm
to Html, csv to Csv, png/jpg/jpeg/bmp to Image; any other extension or a
path with no extension maps to Unknown; two extensions differing only in
letter case (that is, with equal lowercasings) classify identically. -/
theorem from_path_classification :
    (∀ p e, rustPathExtension p = some e →
      (asciiLowercase e = "md" ∨ asciiLowercase e = "markdown") →
      FileType.from_path p = FileType.Markdown) ∧
    (∀ p e, rustPathExtension p = some e → asciiLowercase e = "json" →
      FileType.from_path p = FileType.Json) ∧
    (∀ p e, rustPathExtension p = some e → asciiLowercase e = "xml" →
      FileType.from_path p = FileType.Xml) ∧
    (∀ p e, rustPathExtension p = some e →
      (asciiLowercase e = "txt" ∨ asciiLowercase e = "rs" ∨ asciiLowercase e = "py" ∨
       asciiLowercase e = "js" ∨ asciiLowercase e = "c" ∨ asciiLowercase e = "cpp") →
      FileType.from_path p = FileType.Txt) ∧
    (∀ p e, rustPathExtension p = some e → asciiLowercase e = "docx" →
      FileType.from_path p = FileType.Docx) ∧
    (∀ p e, rustPathExtension p = some e →
      (asciiLowercase e = "html" ∨ asciiLowercase e = "htm") →
      FileType.from_path p = FileType.Html) ∧
    (∀ p e, rustPathExtension p = some e → asciiLowercase e = "csv" →
      FileType.from_path p = FileType.Csv) ∧
    (∀ p e, rustPathExtension p = some e →
      (asciiLowercase e = "png" ∨ asciiLowercase e = "jpg" ∨
       asciiLowercase e = "jpeg" ∨ asciiLowercase e = "bmp") →
      FileType.from_path p = FileType.Image) ∧
    (∀ p e, rustPathExtension p = some e → asciiLowercase e ∉ recognisedExtensions →
      FileType.from_path p = FileType.Unknown) ∧
    (∀ p, rustPathExtension p = none → FileType.from_path p = FileType.Unknown) ∧
    (∀ p q,
      (rustPathExtension p).map asciiLowercase = (rustPathExtension q).map asciiLowercase →
      FileType.from_path p = FileType.from_path q) := by
  refine ⟨?_, ?_, ?_, ?_, ?_, ?_, ?_, ?_, ?_, ?_, ?_⟩
  · rintro p e he (h | h) <;> simp [FileType.from_path, he, h, classifyLowerExt]
  · rintro p e he h; simp [FileType.from_path, he, h, classifyLowerExt]
  · rintro p e he h; simp [FileType.from_path, he, h, classifyLowerExt]
  · rintro p e he (h | h | h | h | h | h) <;>
      simp [FileType.from_path, he, h, classifyLowerExt]
  · rintro p e he h; simp [FileType.from_path, he, h, classifyLowerExt]
  · rintro p e he (h | h) <;> simp [FileType.from_path, he, h, classifyLowerExt]
  · rintro p e he h; simp [FileType.from_path, he, h, classifyLowerExt]
  · rintro p e he (h | h | h | h) <;> simp [FileType.from_path, he, h, classifyLowerExt]
  · rintro p e he h
    have : FileType.from_path p = classifyLowerExt (some (asciiLowercase e)) := by
      simp [FileType.from_path, he]
    rw [this]
    exact classifyLowerExt_not_mem h
  · rintro p he; simp [FileType.from_path, he, classifyLowerExt_none]
  · rintro p q h; unfold FileType.from_path; rw [h]

/-- Witness for C4 at concrete inputs: an upper-case `.MD` file classifies
as Markdown, an advertised-but-unrecognised `.XLSX` file and an
extension-less file classify as Unknown. -/
theorem from_path_classification_witness :
    FileType.from_path "notes.MD" = FileType.Markdown ∧
    FileType.from_path "book.XLSX" = FileType.Unknown ∧
    FileType.from_path "README" = FileType.Unknown :=
  ⟨from_path_classification.1 "notes.MD" "MD" (by decide) (Or.inl (by decide)),
   from_path_classification.2.2.2.2.2.2.2.2.1 "book.XLSX" "XLSX" (by decide) (by decide),
   from_path_classification.2.2.2.2.2.2.2.2.2.1 "README" (by decide)⟩

theorem reach_midBatchApp : Reach midBatchApp [0] [0] := by
  have h1 : Reach (update initialApp (Msg.FilesSelected ["a.md"])).1 [] [] :=
    Reach.filesSelected ["a.md"] Reach.init
  have h2 := Reach.convertAll h1
  have e1 : (update (update initialApp (Msg.FilesSelected ["a.md"])).1 Msg.ConvertAll).1
      = midBatchApp := by decide
  have e2 : ([] : List Nat)
      ++ (update (update initialApp (Msg.FilesSelected ["a.md"])).1 Msg.ConvertAll).2
      = [0] := by decide
  have e3 : (if ((update (update initialApp (Msg.FilesSelected ["a.md"])).1
        Msg.ConvertAll).2).isEmpty then ([] : List Nat)
      else (update (update initialApp (Msg.FilesSelected ["a.md"])).1 Msg.ConvertAll).2)
      = [0] := by decide
  rw [e1, e2, e3] at h2
  exact h2

theorem reach_doneApp : Reach doneApp [] [0] := by
  have h2 := Reach.conversionFinished 0 (Except.ok ()) reach_midBatchApp (by decide)
  have e1 : (update midBatchApp (Msg.ConversionFinished 0 (Except.ok ()))).1 = doneApp := by
    decide
  have e2 : ([0] : List Nat).erase 0 = [] := by decide
  rw [e1, e2] at h2
  exact h2

/-- Claim C6: in every reachable orchestrator state no two entries of the
files list have equal paths; `FilesSelected` appends only new `Pending`
entries whose paths are absent from the list; and adding the same path
twice yields a single entry with that path. -/
theorem files_paths_nodup {s : App} {fl sel : List Nat} (h : Reach s fl sel) :
    (s.files.map FileEntry.path).Nodup ∧
    (∀ paths, ∃ tail, (update s (Msg.FilesSelected paths)).1.files = s.files ++ tail ∧
      ∀ f ∈ tail, f.status = ConversionStatus.Pending ∧
        f.path ∉ s.files.map FileEntry.path) ∧
    ∀ p, (((update s (Msg.FilesSelected [p, p])).1.files).map FileEntry.path).count p = 1 := by
  refine ⟨(reach_inv h).2.2.2.2.2.2, ?_, ?_⟩
  · intro paths
    obtain ⟨tail, htail, hpend⟩ := addFiles_exists_tail s.files paths
    refine ⟨tail, htail, ?_⟩
    intro f hf
    refine ⟨hpend f hf, ?_⟩
    have hreach2 : Reach (update s (Msg.FilesSelected paths)).1 fl sel :=
      Reach.filesSelected paths h
    have hnodup2 := (reach_inv hreach2).2.2.2.2.2.2
    rw [show (update s (Msg.FilesSelected paths)).1.files = s.files ++ tail from htail,
      List.map_append, List.nodup_append] at hnodup2
    intro hmem
    exact hnodup2.2.2 hmem (List.mem_map.mpr ⟨f, hf, rfl⟩)
  · intro p
    have hreach2 : Reach (update s (Msg.FilesSelected [p, p])).1 fl sel :=
      Reach.filesSelected [p, p] h
    have hnodup2 := (reach_inv hreach2).2.2.2.2.2.2
    have hmem : p ∈ ((update s (Msg.FilesSelected [p, p])).1.files).map FileEntry.path := by
      simp only [update]
      exact mem_paths_addFiles (by simp)
    exact List.count_eq_one_of_mem hnodup2 hmem

/-- Witness for C6 at the initial state: its path list is duplicate-free and
selecting the same path twice leaves a single entry for it. -/
theorem files_paths_nodup_witness :
    (initialApp.files.map FileEntry.path).Nodup ∧
    (((update initialApp (Msg.FilesSelected ["a.md", "a.md"])).1.files).map
      FileEntry.path).count "a.md" = 1 :=
  ⟨(files_paths_nodup Reach.init).1, (files_paths_nodup Reach.init).2.2 "a.md"⟩

/-- Claim C8: in every reachable state `completed_files ≤ total_files` and
`is_converting` holds exactly when `completed_files < total_files`; when a
completion event for an in-flight index ends the batch (leaves
`is_converting` false), no entry is left `Converting` and every entry
selected for that batch is in `Success` or `Error`; and the completion
event for the last in-flight index does set `is_converting` to false. -/
theorem batch_progress_invariants {s : App} {fl sel : List Nat} (h : Reach s fl sel) :
    s.completed_files ≤ s.total_files ∧
    (s.is_converting = true ↔ s.completed_files < s.total_files) ∧
    (∀ i r, i ∈ fl →
      (update s (Msg.ConversionFinished i r)).1.is_converting = false →
      (∀ f ∈ (update s (Msg.ConversionFinished i r)).1.files,
        f.status ≠ ConversionStatus.Converting) ∧
      (∀ j ∈ sel, ∃ f, ((update s (Msg.ConversionFinished i r)).1.files)[j]? = some f ∧
        Terminal f.status)) ∧
    (∀ i r, i ∈ fl → fl = [i] →
      (update s (Msg.ConversionFinished i r)).1.is_converting = false) := by
  obtain ⟨h1, h2, h3, h4, h5, h6, h7⟩ := reach_inv h
  refine ⟨by omega, ?_, ?_, ?_⟩
  · constructor
    · intro hc
      have hne := h2.mp hc
      have := List.length_pos.mpr hne
      omega
    · intro hlt
      apply h2.mpr
      intro he
      rw [he] at h1
      simp only [List.length_nil, Nat.add_zero] at h1
      omega
  · intro i r hmem hfin
    obtain ⟨f, hf, hfc⟩ := h4 i hmem
    have hflne : fl ≠ [] := List.ne_nil_of_mem hmem
    have hicv : s.is_converting = true := h2.mpr hflne
    have hcond : s.total_files ≤ s.completed_files + 1 := by
      by_contra hnc
      have hu : update s (Msg.ConversionFinished i r) =
          ({ s with files := setEntryStatus s.files i (statusOfResult r),
                    completed_files := s.completed_files + 1 }, []) := by
        simp [update, hnc]
      rw [hu] at hfin
      simp only at hfin
      rw [hicv] at hfin
      exact Bool.noConfusion hfin
    have hflone : fl.length = 1 := by
      have := List.length_pos.mpr hflne
      omega
    have hfleq : fl = [i] := by
      obtain ⟨a, ha⟩ := List.length_eq_one.mp hflone
      rw [ha] at hmem ⊢
      rw [List.mem_singleton.mp hmem]
    have hu : update s (Msg.ConversionFinished i r) =
        ({ s with files := setEntryStatus s.files i (statusOfResult r),
                  completed_files := s.completed_files + 1,
                  is_converting := false }, []) := by
      simp [update, hcond]
    rw [hu]
    constructor
    · intro g hg hc
      try dsimp only at hg
      obtain ⟨k, hk⟩ := List.mem_iff_getElem?.mp hg
      rw [getElem?_setEntryStatus] at hk
      by_cases hki : k = i
      · rw [if_pos hki] at hk
        subst hki
        rw [hf] at hk
        simp only [Option.map_some'] at hk
        cases hk
        exact statusOfResult_ne_converting r hc
      · rw [if_neg hki] at hk
        have := h5 k g hk hc
        rw [hfleq] at this
        exact hki (List.mem_singleton.mp this)
    · intro j hj
      obtain ⟨g, hg, hcase⟩ := h6 hflne j hj
      by_cases hji : j = i
      · subst hji
        rw [hf] at hg
        cases hg
        refine ⟨{ f with status := statusOfResult r }, ?_, terminal_statusOfResult r⟩
        try dsimp only
        rw [getElem?_setEntryStatus, if_pos rfl, hf]
        rfl
      · rcases hcase with hcv | hterm
        · exfalso
          have := h5 j g hg hcv
          rw [hfleq] at this
          exact hji (List.mem_singleton.mp this)
        · refine ⟨g, ?_, hterm⟩
          try dsimp only
          rw [getElem?_setEntryStatus, if_neg hji]
          exact hg
  · intro i r hmem hfl1
    have hlen1 : fl.length = 1 := by rw [hfl1]; rfl
    have hcond : s.total_files ≤ s.completed_files + 1 := by omega
    have hu : update s (Msg.ConversionFinished i r) =
        ({ s with files := setEntryStatus s.files i (statusOfResult r),
                  completed_files := s.completed_files + 1,
                  is_converting := false }, []) := by
      simp [update, hcond]
    rw [hu]

/-- Witness for C8 at a concrete reachable mid-batch state. -/
theorem batch_progress_invariants_witness :
    midBatchApp.completed_files ≤ midBatchApp.total_files ∧
    midBatchApp.is_converting = true :=
  ⟨(batch_progress_invariants reach_midBatchApp).1,
   (batch_progress_invariants reach_midBatchApp).2.1.mpr (by decide)⟩

/-- Counterexample to claim C2 as stated: `doneApp` is a reachable state
(one entry, all `Success`, a finished batch's counters still standing) with
`is_converting` false, so the claim requires `ConvertAll` to leave the
entire state unchanged; but the handler resets `total_files` and
`completed_files` to 0 before discovering that nothing needs converting, so
the state changes. -/
theorem convert_all_not_noop_counterexample :
    Reach doneApp [] [0] ∧
    doneApp.is_converting = false ∧
    doneApp.files = [{ path := "a.md", status := ConversionStatus.Success }] ∧
    doneApp.total_files = 1 ∧
    doneApp.completed_files = 1 ∧
    (update doneApp Msg.ConvertAll).1.total_files = 0 ∧
    (update doneApp Msg.ConvertAll).1.completed_files = 0 ∧
    (update doneApp Msg.ConvertAll).1 ≠ doneApp :=
  ⟨reach_doneApp, rfl, rfl, rfl, rfl, by decide, by decide, by decide⟩

/-- Claim C2 (amended): `convert_all` leaves the entire orchestrator state
unchanged whenever `is_converting` is already true or the files list is
empty; when the files list is nonempty, no entry has a status other than
`Success`, and `is_converting` is false, it leaves the files, statuses,
`output_dir`, `is_converting` and `show_about` unchanged but resets
`total_files` and `completed_files` to 0. -/
theorem convert_all_guard (s : App) :
    (s.is_converting = true → update s Msg.ConvertAll = (s, [])) ∧
    (s.files = [] → update s Msg.ConvertAll = (s, [])) ∧
    ((∀ f ∈ s.files, f.status = ConversionStatus.Success) → s.is_converting = false →
      s.files ≠ [] →
      update s Msg.ConvertAll =
        ({ s with is_converting := false, completed_files := 0, total_files := 0 }, [])) := by
  refine ⟨?_, ?_, ?_⟩
  · intro h
    simp [update, h]
  · intro h
    simp [update, h]
  · intro hall hconv hne
    have hie : s.files.isEmpty = false := by
      rw [List.isEmpty_eq_false]
      exact hne
    have htc : filesToConvert s.files = [] := filesToConvert_eq_nil_of_all_success hall
    simp [update, hie, hconv, htc]

/-- Witness for C2 (amended) at the concrete all-Success state `doneApp`. -/
theorem convert_all_guard_witness :
    update doneApp Msg.ConvertAll =
      ({ doneApp with is_converting := false, completed_files := 0, total_files := 0 }, []) :=
  (convert_all_guard doneApp).2.2 (by decide) rfl (by decide)

/-- Counterexample to claim C3 as stated: `midBatchApp` is a reachable
state with `is_converting` true, yet processing `RemoveFile 0` removes the
entry — the `update` handler checks only that the index is in range, not
`is_converting`. -/
theorem remove_file_during_conversion_counterexample :
    Reach midBatchApp [0] [0] ∧
    midBatchApp.is_converting = true ∧
    (update midBatchApp (Msg.RemoveFile 0)).1.files = [] ∧
    (update midBatchApp (Msg.RemoveFile 0)).1.files ≠ midBatchApp.files :=
  ⟨reach_midBatchApp, rfl, by decide, by decide⟩

/-- Claim C3 (amended): processing `RemoveFile index` drops the entry at
the given index whenever the index is in range, regardless of
`is_converting` (out-of-range indices leave the state unchanged); the
only-while-not-converting restriction is enforced solely by the view, which
does not render a remove button while a batch runs, not by the update
transition. -/
theorem remove_file_behavior (s : App) (i : Nat) :
    (i < s.files.length → (update s (Msg.RemoveFile i)).1.files = s.files.eraseIdx i) ∧
    (s.files.length ≤ i → (update s (Msg.RemoveFile i)).1 = s) := by
  constructor
  · intro h
    simp [update, h]
  · intro h
    simp [update, Nat.not_lt.mpr h]

/-- Witness for C3 (amended): the in-range removal at the mid-batch state. -/
theorem remove_file_behavior_witness :
    (update midBatchApp (Msg.RemoveFile 0)).1.files = midBatchApp.files.eraseIdx 0 :=
  (remove_file_behavior midBatchApp 0).1 (by decide)

/-- Claim C7: when `convert_all` starts a batch, exactly the entries whose
status is not `Success` are selected (so `Error` and `Pending` entries are
attempted and `Success` entries are skipped), each selected entry is set to
`Converting`, `total_files` equals the number of selected entries, and
`completed_files` is reset to 0. -/
theorem convert_all_selection (s : App) (h1 : s.is_converting = false)
    (h2 : s.files ≠ []) (h3 : ∃ f ∈ s.files, f.status ≠ ConversionStatus.Success) :
    (update s Msg.ConvertAll).2 = filesToConvert s.files ∧
    (∀ i, i ∈ filesToConvert s.files ↔
      ∃ f, s.files[i]? = some f ∧ f.status ≠ ConversionStatus.Success) ∧
    (update s Msg.ConvertAll).1.total_files = (filesToConvert s.files).length ∧
    (update s Msg.ConvertAll).1.completed_files = 0 ∧
    (update s Msg.ConvertAll).1.is_converting = true ∧
    (∀ (i : Nat) (f : FileEntry), s.files[i]? = some f →
      ((update s Msg.ConvertAll).1.files)[i]? =
        some (if f.status = ConversionStatus.Success then f
              else { f with status := ConversionStatus.Converting })) := by
  obtain ⟨f0, hf0mem, hf0⟩ := h3
  obtain ⟨k0, hk0⟩ := List.mem_iff_getElem?.mp hf0mem
  have hk0in : k0 ∈ filesToConvert s.files :=
    mem_filesToConvert.mpr ⟨f0, hk0, isSuccess_eq_false_iff.mpr hf0⟩
  have hlen : ¬ (filesToConvert s.files).length = 0 := by
    intro h0
    rw [List.length_eq_zero] at h0
    rw [h0] at hk0in
    exact List.not_mem_nil _ hk0in
  have hie : s.files.isEmpty = false := by
    rw [List.isEmpty_eq_false]
    exact h2
  have hu : update s Msg.ConvertAll =
      ({ s with is_converting := true, completed_files := 0,
                total_files := (filesToConvert s.files).length,
                files := markConverting s.files (filesToConvert s.files) },
       filesToConvert s.files) := by
    simp [update, hie, h1, hlen]
  rw [hu]
  refine ⟨rfl, ?_, rfl, rfl, rfl, ?_⟩
  · intro i
    rw [mem_filesToConvert]
    constructor
    · rintro ⟨f, hf, hs⟩
      exact ⟨f, hf, isSuccess_eq_false_iff.mp hs⟩
    · rintro ⟨f, hf, hs⟩
      exact ⟨f, hf, isSuccess_eq_false_iff.mpr hs⟩
  · intro i f hf
    try dsimp only
    rw [getElem?_markConverting]
    by_cases hin : i ∈ filesToConvert s.files
    · rw [if_pos hin, hf]
      obtain ⟨g, hg, hgs⟩ := mem_filesToConvert.mp hin
      rw [hf] at hg
      cases hg
      rw [if_neg (isSuccess_eq_false_iff.mp hgs)]
      rfl
    · rw [if_neg hin, hf]
      have hsucc : f.status = ConversionStatus.Success := by
        by_contra hns
        exact hin (mem_filesToConvert.mpr ⟨f, hf, isSuccess_eq_false_iff.mpr hns⟩)
      rw [if_pos hsucc]

/-- Witness for C7 at `mixedApp` (one pending, one successful entry): only
the pending index is scheduled and the batch counters are set. -/
theorem convert_all_selection_witness :
    (update mixedApp Msg.ConvertAll).2 = [0] ∧
    (update mixedApp Msg.ConvertAll).1.total_files = 1 ∧
    (update mixedApp Msg.ConvertAll).1.completed_files = 0 ∧
    (update mixedApp Msg.ConvertAll).1.is_converting = true := by
  have h := convert_all_selection mixedApp rfl (by decide)
    ⟨{ path := "a.md", status := ConversionStatus.Pending }, by decide, by decide⟩
  exact ⟨h.1.trans (by decide), h.2.2.1.trans (by decide), h.2.2.2.1, h.2.2.2.2.1⟩

/-- Claim C10: for every state and every result, a `ConversionFinished`
event with an out-of-range index still increments `completed_files` by one,
changes no entry, and sets `is_converting` to false exactly when the new
`completed_files` has reached `total_files`. -/
theorem conversion_finished_out_of_range (s : App) (i : Nat) (r : Except String Unit)
    (h : s.files.length ≤ i) :
    (update s (Msg.ConversionFinished i r)).1.files = s.files ∧
    (update s (Msg.ConversionFinished i r)).1.completed_files = s.completed_files + 1 ∧
    (update s (Msg.ConversionFinished i r)).1.is_converting =
      (if s.total_files ≤ s.completed_files + 1 then false else s.is_converting) := by
  have hset : setEntryStatus s.files i (statusOfResult r) = s.files := by
    unfold setEntryStatus
    rw [List.getElem?_eq_none h]
  by_cases hcond : s.total_files ≤ s.completed_files + 1
  · have hu : update s (Msg.ConversionFinished i r) =
        ({ s with files := setEntryStatus s.files i (statusOfResult r),
                  completed_files := s.completed_files + 1,
                  is_converting := false }, []) := by
      simp [update, hcond]
    rw [hu]
    exact ⟨hset, rfl, by rw [if_pos hcond]⟩
  · have hu : update s (Msg.ConversionFinished i r) =
        ({ s with files := setEntryStatus s.files i (statusOfResult r),
                  completed_files := s.completed_files + 1 }, []) := by
      simp [update, hcond]
    rw [hu]
    exact ⟨hset, rfl, by rw [if_neg hcond]⟩

/-- Witness for C10 at `doneApp` with the out-of-range index 5. -/
theorem conversion_finished_out_of_range_witness :
    (update doneApp (Msg.ConversionFinished 5 (Except.ok ()))).1.files = doneApp.files ∧
    (update doneApp (Msg.ConversionFinished 5 (Except.ok ()))).1.completed_files = 2 ∧
    (update doneApp (Msg.ConversionFinished 5 (Except.ok ()))).1.is_converting = false := by
  have h := conversion_finished_out_of_range doneApp 5 (Except.ok ()) (by decide)
  exact ⟨h.1, h.2.1.trans (by decide), h.2.2.trans (by decide)⟩

/-- Counterexample to claim C5 as stated: for an `Unknown`-classified path
whose file is unreadable (or not valid UTF-8), `convert` fails with
"Failed to read file" rather than "Unknown file type", because the
content `match` reads the file through its `_` arm before the type is
checked. -/
theorem convert_unknown_read_failure_counterexample :
    FileType.from_path "note.unknownext" = FileType.Unknown ∧
    convert (fun _ => none) (fun _ => Except.ok "") trivialRenderers "note.unknownext" =
      Except.error "Failed to read file" ∧
    convert (fun _ => none) (fun _ => Except.ok "") trivialRenderers "note.unknownext" ≠
      Except.error "Unknown file type" := by
  refine ⟨by decide, rfl, ?_⟩
  intro hcontra
  have h2 : (Except.error "Failed to read file" : Except String (List Block)) =
      Except.error "Unknown file type" := by
    rw [← hcontra]
    rfl
  simp at h2

/-- Claim C5 (amended): for every input path classified as `Unknown`,
`convert` first attempts to read the file; if the read succeeds it returns
the error "Unknown file type", and if the read fails it returns the error
"Failed to read file"; in either case it fails before any PDF rendering or
writing occurs, so no output file is produced, and delivering the error to
the orchestrator transitions the entry to `Error`. -/
theorem convert_unknown (readFile : String → Option String)
    (readDocx : String → Except String String) (ext : ExternalRenderers) (input : String)
    (h : FileType.from_path input = FileType.Unknown) :
    (∀ c, readFile input = some c →
      convert readFile readDocx ext input = Except.error "Unknown file type") ∧
    (readFile input = none →
      convert readFile readDocx ext input = Except.error "Failed to read file") ∧
    (∀ bs, convert readFile readDocx ext input ≠ Except.ok bs) ∧
    (∀ (s : App) (i : Nat) (e : String) (f : FileEntry), s.files[i]? = some f →
      ((update s (Msg.ConversionFinished i (Except.error e))).1.files)[i]? =
        some { f with status := ConversionStatus.Error e }) := by
  refine ⟨?_, ?_, ?_, ?_⟩
  · intro c hc
    simp [convert, h, hc]
  · intro hn
    simp [convert, h, hn]
  · intro bs hbs
    cases hrf : readFile input with
    | some c => simp [convert, h, hrf] at hbs
    | none => simp [convert, h, hrf] at hbs
  · intro s i e f hf
    have hfiles : (update s (Msg.ConversionFinished i (Except.error e))).1.files =
        setEntryStatus s.files i (ConversionStatus.Error e) := by
      simp only [update, statusOfResult]
      split <;> rfl
    rw [hfiles, getElem?_setEntryStatus, if_pos rfl, hf]
    rfl

/-- Witness for C5 (amended): a readable unknown-extension file fails with
"Unknown file type". -/
theorem convert_unknown_witness :
    convert (fun _ => some "data") (fun _ => Except.ok "") trivialRenderers "note.unknownext" =
      Except.error "Unknown file type" :=
  (convert_unknown (fun _ => some "data") (fun _ => Except.ok "") trivialRenderers
    "note.unknownext" (by decide)).1 "data" rfl

/-- Claim C9: for every input path that has no parent directory, when no
output directory is set, the orchestrator's output-path computation in
`convert_all` panics (the `unwrap()` on `parent()` returns no value, which
the model renders as `none`) rather than producing an `Error` status. -/
theorem output_path_panics_without_parent (input : String)
    (h : parentPath input = none) :
    computeOutputPath none input = none := by
  simp [computeOutputPath, h]

/-- Witness for C9 at the root path, which has no parent. -/
theorem output_path_panics_without_parent_witness :
    parentPath "/" = none ∧ computeOutputPath none "/" = none :=
  ⟨by decide, output_path_panics_without_parent "/" (by decide)⟩

end Topdf
